import Mathlib

/-!
Shallow embedding of read_bayesnet.py, a regular-expression based reader for
the .bif Bayesian-network interchange format.

Strings are modelled as lists of characters.  Each of the five regular
expressions of the source (NETWORK_RE, VAR_RE, PROB_RE, TABLE_RE, PARENTS_RE)
is hand-compiled into a deterministic matcher that reproduces the behaviour of
the Python backtracking engine on those patterns.  Where the patterns
genuinely backtrack this is made explicit: the greedy variable-name capture
of PROB_RE becomes a longest-first loop, and the greedy space runs that
precede the numeric captures of TABLE_RE and PARENTS_RE and the parents
capture of PROB_RE each give back one space when the following capture would
otherwise be empty.  Python exceptions are modelled with an error type and
construction returns an Except value.  Floating point values are modelled as
the exact decimal values of the literals (with symbolic infinities and nan):
the claims checked here concern which tokens convert successfully and the
identity of stored values, never rounding.
-/

namespace ReadBayesnet

/-- Characters recognised by the literal space token of the patterns. -/
def isSp (c : Char) : Bool := c == ' '

/-- Newline character, matched by the literal backslash-n of the patterns. -/
def isNl (c : Char) : Bool := c == '\n'

/-- Whitespace stripped by the str.strip calls of the source (ASCII set). -/
def isPyWs (c : Char) : Bool :=
  c == ' ' || c == '\t' || c == '\n' || c == '\r' || c == '\x0b' || c == '\x0c'

/-- Characters of the domain-value class of VAR_RE: letters, comma, space,
digits (the class written a-zA-Z, 0-9 in the source). -/
def isDomChar (c : Char) : Bool := c.isAlpha || c == ',' || c == ' ' || c.isDigit

/-- Maximal munch: split a list into the longest prefix of characters
satisfying p and the remainder.  Models a greedy character-class repetition. -/
def munch (p : Char → Bool) : List Char → List Char × List Char
  | [] => ([], [])
  | c :: cs =>
    if p c then
      let r := munch p cs
      (c :: r.1, r.2)
    else ([], c :: cs)

/-- Consume a literal string at the head of the input, as a regex literal
does; returns the rest on success. -/
def eatLit : List Char → List Char → Option (List Char)
  | [], s => some s
  | _ :: _, [] => none
  | c :: cs, d :: ds => if c == d then eatLit cs ds else none

/-- Remove the longest suffix of characters satisfying p. -/
def dropTrail (p : Char → Bool) (s : List Char) : List Char :=
  ((munch p s.reverse).2).reverse

/-- Remove the longest prefix of characters satisfying p. -/
def dropLead (p : Char → Bool) (s : List Char) : List Char :=
  (munch p s).2

/-- Python str.strip(): remove leading and trailing whitespace. -/
def pyStrip (s : List Char) : List Char :=
  dropTrail isPyWs (dropLead isPyWs s)

/-- Python str.split on a comma: every comma separates, empty pieces are
kept, and the empty string splits to one empty piece. -/
def splitComma : List Char → List (List Char)
  | [] => [[]]
  | c :: cs =>
    if c == ',' then [] :: splitComma cs
    else
      match splitComma cs with
      | g :: gs => (c :: g) :: gs
      | [] => [[c]]

/-- Value of a parsed floating-point literal: the exact decimal number
finite mant exp10 (mant times ten to the exp10), a signed infinity, or nan.
This represents the literal as read, which is what the source stores and
returns unchanged; IEEE rounding is irrelevant to every claim checked here
and is not modelled, and the sign of a nan is not observed by this
program. -/
inductive PyFloat where
  | finite (mant : ℤ) (exp10 : ℤ)
  | inf (pos : Bool)
  | nan
deriving DecidableEq

/-- Digit group of a Python numeric literal after its leading digit: further
digits with single underscores allowed between digits (PEP 515).  Returns
the accumulated value, the digit count and the unconsumed rest; a trailing
or doubled underscore is left unconsumed and later rejects the token. -/
def digitPartAux (acc cnt : Nat) : List Char → Nat × Nat × List Char
  | '_' :: c :: cs =>
    if c.isDigit then digitPartAux (acc * 10 + (c.toNat - '0'.toNat)) (cnt + 1) cs
    else (acc, cnt, '_' :: c :: cs)
  | c :: cs =>
    if c.isDigit then digitPartAux (acc * 10 + (c.toNat - '0'.toNat)) (cnt + 1) cs
    else (acc, cnt, c :: cs)
  | [] => (acc, cnt, [])

/-- A digit part of a Python numeric literal: it must open with a digit (an
underscore may not lead).  Returns value, digit count and rest; a count of
zero means no digit part is present. -/
def pyDigits (s : List Char) : Nat × Nat × List Char :=
  match s with
  | c :: cs =>
    if c.isDigit then digitPartAux (c.toNat - '0'.toNat) 1 cs else (0, 0, s)
  | [] => (0, 0, [])

/-- Python float() on an already stripped token, producing the exact decimal
value of the literal.  Accepts an optional sign followed by the
case-insensitive special forms inf, infinity and nan, or a mantissa with at
least one digit (digits, digits point digits, digits point, or point digits,
with PEP 515 underscores between digits) and an optional exponent part.
Digits are ASCII, like every input of this development. -/
def pyFloatCore (s : List Char) : Option PyFloat :=
  let sgn : Bool × List Char :=
    match s with
    | '+' :: r => (true, r)
    | '-' :: r => (false, r)
    | r => (true, r)
  let low := sgn.2.map Char.toLower
  if low = ("inf").data then some (.inf sgn.1)
  else if low = ("infinity").data then some (.inf sgn.1)
  else if low = ("nan").data then some .nan
  else
    let d1 := pyDigits sgn.2
    let d2 : Nat × Nat × List Char :=
      match d1.2.2 with
      | '.' :: r => pyDigits r
      | _ => (0, 0, d1.2.2)
    let hadDot : Bool := match d1.2.2 with | '.' :: _ => true | _ => false
    let tail3 : List Char := if hadDot then d2.2.2 else d1.2.2
    if d1.2.1 + d2.2.1 = 0 then none
    else
      let m : ℤ := (if sgn.1 then 1 else -1) * ((d1.1 * 10 ^ d2.2.1 + d2.1 : Nat) : ℤ)
      match tail3 with
      | [] => some (.finite m (-(d2.2.1 : ℤ)))
      | e :: r =>
        if e == 'e' || e == 'E' then
          let es : Bool × List Char :=
            match r with
            | '+' :: t => (true, t)
            | '-' :: t => (false, t)
            | t => (true, t)
          let ed := pyDigits es.2
          if ed.2.1 = 0 || !ed.2.2.isEmpty then none
          else
            let ex : ℤ := if es.1 then (ed.1 : ℤ) else -(ed.1 : ℤ)
            some (.finite m (ex - (d2.2.1 : ℤ)))
        else none

/-- Python repr of a string with simple contents: surrounding single quotes. -/
def pyStrQuoted (s : List Char) : List Char :=
  '\x27' :: (s ++ ['\x27'])

/-- Comma-space interleaving used by Python tuple printing. -/
def interComma : List (List Char) → List Char
  | [] => []
  | [x] => x
  | x :: y :: rest => x ++ (',' :: ' ' :: interComma (y :: rest))

/-- Python str of a tuple of strings, as produced by str.format on a tuple
key: parentheses around quoted elements, with the trailing comma of
one-element tuples. -/
def pyStrTuple (t : List (List Char)) : List Char :=
  match t with
  | [] => ['(', ')']
  | [x] => '(' :: (pyStrQuoted x ++ [',', ')'])
  | _ => '(' :: (interComma (t.map pyStrQuoted) ++ [')'])

/-- Python exceptions that the reader can raise while parsing or querying. -/
inductive PyError where
  | attributeError (attr : List Char)
  | valueError (tok : List Char)
  | keyError (msg : List Char)
deriving DecidableEq

/-- Decidable equality for Except values, used only to evaluate the parser on
concrete inputs inside proofs. -/
instance exceptDecEq {ε α : Type} [DecidableEq ε] [DecidableEq α] :
    DecidableEq (Except ε α) := fun x y =>
  match x, y with
  | .ok a, .ok b =>
    if h : a = b then .isTrue (by rw [h]) else
      .isFalse (by intro hh; injection hh; contradiction)
  | .error a, .error b =>
    if h : a = b then .isTrue (by rw [h]) else
      .isFalse (by intro hh; injection hh; contradiction)
  | .ok _, .error _ => .isFalse (by intro hh; injection hh)
  | .error _, .ok _ => .isFalse (by intro hh; injection hh)

/-- Matcher for NETWORK_RE anchored at position zero, as used by re.match in
parse_network.  Returns the name capture (group 1) on success.  The name
capture is the text from the first non-space character after the network
keyword through the last non-space character before the opening brace, and
the brace body must be one or more newlines followed by spaces and the
closing brace. -/
def matchNetwork (s : List Char) : Option (List Char) :=
  let s1 := (munch isSp s).2
  match eatLit ("network".data) s1 with
  | none => none
  | some s2 =>
    let k1 := munch isSp s2
    if k1.1.isEmpty then none
    else
      let pre := munch (fun c => !(c == '\x7b')) k1.2
      match pre.2 with
      | '\x7b' :: s5 =>
        let nm := dropTrail isSp pre.1
        if nm.isEmpty then none
        else
          let n1 := munch isNl s5
          if n1.1.isEmpty then none
          else
            match (munch isSp n1.2).2 with
            | '\x7d' :: _ => some nm
            | _ => none
      | _ => none

/-- Final part of the VAR_RE matcher: the literal brace-semicolon, one or more
newlines, spaces, and the closing brace of the variable block. -/
def varTail (nm ds vals : List Char) (s : List Char) :
    Option ((List Char × List Char × List Char) × List Char) :=
  let n2 := munch isNl s
  if n2.1.isEmpty then none
  else
    match (munch isSp n2.2).2 with
    | '\x7d' :: s3 => some ((nm, ds, vals), s3)
    | _ => none

/-- Middle part of the VAR_RE matcher, from the bracketed domain size to the
domain value list.  The value capture is the maximal run of class characters
after the greedy spaces that follow the inner opening brace; when that run is
empty, the Python engine backtracks one space into the capture, so the
capture is a single space provided at least one space preceded the closing
brace-semicolon. -/
def varAfterType (nm : List Char) (s : List Char) :
    Option ((List Char × List Char × List Char) × List Char) :=
  match s with
  | '[' :: s1 =>
    let sp1 := munch isSp s1
    if sp1.1.isEmpty then none
    else
      let ds := munch Char.isDigit sp1.2
      if ds.1.isEmpty then none
      else
        let sp2 := munch isSp ds.2
        if sp2.1.isEmpty then none
        else
          match sp2.2 with
          | ']' :: s5 =>
            match (munch isSp s5).2 with
            | '\x7b' :: s7 =>
              let spk := munch isSp s7
              let vals := munch isDomChar spk.2
              if vals.1.isEmpty then
                if spk.1.isEmpty then none
                else
                  match vals.2 with
                  | '\x7d' :: ';' :: s10 => varTail nm ds.1 [' '] s10
                  | _ => none
              else
                match vals.2 with
                | '\x7d' :: ';' :: s10 => varTail nm ds.1 vals.1 s10
                | _ => none
            | _ => none
          | _ => none
  | _ => none

/-- Matcher for VAR_RE at the start of s.  On success returns the three
captures (name, domain-size digits, domain-values text) and the rest of the
input after the match. -/
def varCore (s : List Char) :
    Option ((List Char × List Char × List Char) × List Char) :=
  let s1 := (munch isSp s).2
  match eatLit ("variable".data) s1 with
  | none => none
  | some s2 =>
    let k1 := munch isSp s2
    if k1.1.isEmpty then none
    else
      let nm := munch (fun c => !(c == '\x7b' || c == ' ')) k1.2
      if nm.1.isEmpty then none
      else
        let k2 := munch isSp nm.2
        if k2.1.isEmpty then none
        else
          match k2.2 with
          | '\x7b' :: s6 =>
            let n1 := munch isNl s6
            if n1.1.isEmpty then none
            else
              match eatLit ("type".data) (munch isSp n1.2).2 with
              | none => none
              | some s9 =>
                let ks := munch isSp s9
                if ks.1.isEmpty then none
                else
                  match eatLit ("discrete".data) ks.2 with
                  | some s11 =>
                    let ks2 := munch isSp s11
                    if ks2.1.isEmpty then none
                    else varAfterType nm.1 ks2.2
                  | none =>
                    if ks.1.length < 2 then none
                    else varAfterType nm.1 ks.2
          | _ => none

/-- Brace body part of the PROB_RE matcher after the closing parenthesis:
spaces, opening brace, one literal newline, body capture, then a newline,
spaces and the closing brace.  The body capture is greedy over non-brace
characters, so it extends to the last non-space character (which must be
preceded by content and followed by a newline) before the closing brace. -/
def probBrace (s : List Char) : Option (List Char × List Char) :=
  match (munch isSp s).2 with
  | '\x7b' :: '\n' :: s2 =>
    let reg := munch (fun c => !(c == '\x7d')) s2
    match reg.2 with
    | '\x7d' :: s4 =>
      let rt := dropTrail isSp reg.1
      match rt.reverse with
      | '\n' :: rest => if rest.isEmpty then none else some (rest.reverse, s4)
      | _ => none
    | _ => none
  | _ => none

/-- Continuation of the PROB_RE matcher after a candidate variable-name
capture: optional pipe-introduced parents capture, closing parenthesis, and
the brace body.  When the run of non-parenthesis characters after the greedy
spaces following the pipe is empty, the engine backtracks one space into the
capture, so the parents capture is a single space provided at least one
space followed the pipe.  When the pipe branch fails the engine falls
through to the empty alternative, which then fails on the closing
parenthesis, so failure of the pipe branch fails the continuation. -/
def probCont (v : List Char) (s : List Char) :
    Option ((List Char × List Char × List Char) × List Char) :=
  match (munch isSp s).2 with
  | '|' :: s2 =>
    let sp2 := munch isSp s2
    let ps := munch (fun c => !(c == ')')) sp2.2
    if ps.1.isEmpty then
      if sp2.1.isEmpty then none
      else
        match ps.2 with
        | ')' :: s5 =>
          match probBrace s5 with
          | some (body, rest) => some ((v, [' '], body), rest)
          | none => none
        | _ => none
    else
      match ps.2 with
      | ')' :: s5 =>
        match probBrace s5 with
        | some (body, rest) => some ((v, ps.1, body), rest)
        | none => none
      | _ => none
  | ')' :: s5 =>
    match probBrace s5 with
    | some (body, rest) => some ((v, [], body), rest)
    | none => none
  | _ => none

/-- Backtracking loop of the greedy variable-name capture of PROB_RE: the
candidates are the nonempty prefixes of the maximal munch of non-space
characters, tried longest first, exactly as the Python engine shrinks a
greedy repetition.  The candidate is passed reversed so the recursion is
structural. -/
def probVarLoop : List Char → List Char → Option ((List Char × List Char × List Char) × List Char)
  | [], _ => none
  | c :: vr, rest =>
    match probCont ((c :: vr).reverse) rest with
    | some x => some x
    | none => probVarLoop vr (c :: rest)

/-- Matcher for PROB_RE at the start of s.  On success returns the three
captures (variable name, parents text or empty, body text) and the rest of
the input after the match. -/
def probCore (s : List Char) :
    Option ((List Char × List Char × List Char) × List Char) :=
  let s1 := (munch isSp s).2
  match eatLit ("probability".data) s1 with
  | none => none
  | some s2 =>
    let k1 := munch isSp s2
    if k1.1.isEmpty then none
    else
      match k1.2 with
      | '(' :: s4 =>
        let vm := munch (fun c => !(c == ' ')) (munch isSp s4).2
        probVarLoop vm.1.reverse vm.2
      | _ => none

/-- Matcher for TABLE_RE anchored at the start of the body, as used by
re.match in parse_probabilities.  Returns the numeric-list capture.  When the
run of non-semicolon characters after the greedy spaces is empty the engine
backtracks one space into the capture, so the capture is a single space
provided at least two spaces followed the table keyword. -/
def tableMatchAt (s : List Char) : Option (List Char) :=
  let s1 := (munch isSp s).2
  match eatLit ("table".data) s1 with
  | none => none
  | some s2 =>
    let k := munch isSp s2
    if k.1.isEmpty then none
    else
      let cap := munch (fun c => !(c == ';')) k.2
      if cap.1.isEmpty then
        if 2 ≤ k.1.length then
          match cap.2 with
          | ';' :: _ => some [' ']
          | _ => none
        else none
      else
        match cap.2 with
        | ';' :: _ => some cap.1
        | _ => none

/-- Matcher for PARENTS_RE at the start of s, used through findall on a
probability body.  On success returns the two captures (assignment text,
numeric-list text) and the rest of the input.  The same one-space backtrack
as in the table matcher applies to an empty numeric capture. -/
def rowCore (s : List Char) : Option ((List Char × List Char) × List Char) :=
  match (munch isSp s).2 with
  | '(' :: s2 =>
    let g1 := munch (fun c => !(c == ')')) s2
    if g1.1.isEmpty then none
    else
      match g1.2 with
      | ')' :: s4 =>
        let k := munch isSp s4
        if k.1.isEmpty then none
        else
          let g2 := munch (fun c => !(c == ';')) k.2
          if g2.1.isEmpty then
            if 2 ≤ k.1.length then
              match g2.2 with
              | ';' :: s7 => some ((g1.1, [' ']), s7)
              | _ => none
            else none
          else
            match g2.2 with
            | ';' :: s7 => some ((g1.1, g2.1), s7)
            | _ => none
      | _ => none
  | _ => none

/-- Scanner implementing findall: repeatedly try the matcher at the current
position, consume the match on success, otherwise advance one character.  All
the matchers used here consume at least one character on success, so a fuel
of one more than the input length always suffices. -/
def scanAll {α : Type} (core : List Char → Option (α × List Char)) :
    Nat → List Char → List α
  | 0, _ => []
  | Nat.succ fuel, s =>
    match core s with
    | some (a, rest) => a :: scanAll core fuel rest
    | none =>
      match s with
      | [] => []
      | _ :: t => scanAll core fuel t

/-- var_re.findall over the whole input. -/
def varScan (s : List Char) : List (List Char × List Char × List Char) :=
  scanAll varCore (s.length + 1) s

/-- prob_re.findall over the whole input. -/
def probScan (s : List Char) : List (List Char × List Char × List Char) :=
  scanAll probCore (s.length + 1) s

/-- parents_re.findall over a probability body. -/
def rowScan (s : List Char) : List (List Char × List Char) :=
  scanAll rowCore (s.length + 1) s

/-- The Variable class of the source: a name, an ordered domain, and the
three probability fields initialised empty by the constructor. -/
structure Variable where
  name : List Char
  domain : List (List Char)
  probabilities : List (List (List Char) × List PyFloat) := []
  parents : List (List Char) := []
  table : List PyFloat := []
deriving DecidableEq

/-- Lookup in the probabilities mapping, modelled as an insertion-ordered
association list, which is how the Python dict behaves here. -/
def dictFind (d : List (List (List Char) × List PyFloat)) (k : List (List Char)) :
    Option (List PyFloat) :=
  match d with
  | [] => none
  | (k0, v0) :: rest => if k0 = k then some v0 else dictFind rest k

/-- Insertion into the probabilities mapping: an existing key keeps its
position and gets the new value, a new key is appended. -/
def dictInsert (d : List (List (List Char) × List PyFloat)) (k : List (List Char))
    (v : List PyFloat) : List (List (List Char) × List PyFloat) :=
  match d with
  | [] => [(k, v)]
  | (k0, v0) :: rest =>
    if k0 = k then (k0, v) :: rest else (k0, v0) :: dictInsert rest k v

/-- The KeyError message raised by Variable.get_probability, including the
Python str of the offending tuple. -/
def keyErrMsg (a : List (List Char)) : List Char :=
  ("Key (".data) ++ pyStrTuple a ++ (") is not an assignment for this variable.".data)

/-- Variable.get_probability of the source: the assignment list becomes a
tuple key, a present key returns the stored vector, an absent key raises a
KeyError naming the tuple.  Only the probabilities mapping is consulted. -/
def Variable.get_probability (v : Variable) (assignment : List (List Char)) :
    Except PyError (List PyFloat) :=
  match dictFind v.probabilities assignment with
  | some p => .ok p
  | none => .error (.keyError (keyErrMsg assignment))

/-- The BayesianNetwork data after construction: the network name and the
variable list in declaration order.  The source calls the second field
variables; that word is a reserved keyword here, so the field is named vars. -/
structure BayesianNetwork where
  name : List Char
  vars : List Variable
deriving DecidableEq

/-- Linear name lookup over a variable list, the loop of
BayesianNetwork.get_variable: the first match is returned and falling off the
end yields the implicit None of the Python function. -/
def getVarList (vars : List Variable) (n : List Char) : Option Variable :=
  match vars with
  | [] => none
  | v :: rest => if v.name = n then some v else getVarList rest n

/-- BayesianNetwork.get_variable of the source. -/
def BayesianNetwork.get_variable (bn : BayesianNetwork) (n : List Char) :
    Option Variable :=
  getVarList bn.vars n

/-- In-place mutation of the first variable with the given name, modelling an
attribute assignment through the alias returned by get_variable. -/
def updateVar (vars : List Variable) (n : List Char) (f : Variable → Variable) :
    List Variable :=
  match vars with
  | [] => []
  | v :: rest => if v.name = n then f v :: rest else v :: updateVar rest n f

/-- parse_network of the source.  A successful match always provides group 1,
so the except IndexError handler that would set the name to the sentinel
Unnamed network is unreachable; a failed match yields None and the subsequent
group call raises an AttributeError that nothing catches. -/
def parse_network (content : List Char) : Except PyError (List Char) :=
  match matchNetwork content with
  | some nm => .ok nm
  | none => .error (.attributeError ("group".data))

/-- parse_variables of the source: one Variable per var_re.findall capture,
in match order, with the domain text split on commas and each label
stripped.  The middle capture (the bracketed domain size) is discarded. -/
def parse_variables (content : List Char) : List Variable :=
  (varScan content).map fun t =>
    { name := t.1, domain := (splitComma t.2.2).map pyStrip }

/-- Conversion of the comma-split numeric tokens of one row or table, in
order; the first token rejected by float() raises a ValueError. -/
def floatList : List (List Char) → Except PyError (List PyFloat)
  | [] => .ok []
  | t :: ts =>
    match pyFloatCore (pyStrip t) with
    | none => .error (.valueError t)
    | some q =>
      match floatList ts with
      | .error e => .error e
      | .ok qs => .ok (q :: qs)

/-- The row loop of the parents branch of parse_probabilities: each row text
pair becomes a stripped key tuple and a parsed probability vector inserted
into the mapping. -/
def parseProbRows : List (List Char × List Char) →
    List (List (List Char) × List PyFloat) →
    Except PyError (List (List (List Char) × List PyFloat))
  | [], d => .ok d
  | (ktext, vtext) :: rest, d =>
    let key := (splitComma ktext).map pyStrip
    match floatList (splitComma vtext) with
    | .error e => .error e
    | .ok prob => parseProbRows rest (dictInsert d key prob)

/-- Processing of one prob_re capture by parse_probabilities.  With a
nonempty parents text: rows are scanned, the target variable is resolved (a
missing variable makes the parents attribute assignment on None raise an
AttributeError), parents are assigned and the rows are folded into the
mapping.  With an empty parents text: the body must match TABLE_RE (a failed
match makes the group call on None raise an AttributeError), then the numeric
list is converted (ValueError on a bad token) and assigned to the table of
the resolved variable (AttributeError on None). -/
def processDecl (vars : List Variable) (d : List Char × List Char × List Char) :
    Except PyError (List Variable) :=
  match d.2.1 with
  | [] =>
    match tableMatchAt d.2.2 with
    | none => .error (.attributeError ("group".data))
    | some cap =>
      match floatList (splitComma cap) with
      | .error e => .error e
      | .ok probs =>
        match getVarList vars d.1 with
        | none => .error (.attributeError ("table".data))
        | some _ => .ok (updateVar vars d.1 fun w => { w with table := probs })
  | _ :: _ =>
    match getVarList vars d.1 with
    | none => .error (.attributeError ("parents".data))
    | some v =>
      match parseProbRows (rowScan d.2.2) v.probabilities with
      | .error e => .error e
      | .ok d2 =>
        .ok (updateVar vars d.1 fun w =>
          { w with parents := (splitComma d.2.1).map pyStrip, probabilities := d2 })

/-- Sequential processing of all probability captures, threading the mutated
variable list; the first exception aborts the whole construction. -/
def foldProbs (vars : List Variable) :
    List (List Char × List Char × List Char) → Except PyError (List Variable)
  | [] => .ok vars
  | d :: ds =>
    match processDecl vars d with
    | .error e => .error e
    | .ok vars2 => foldProbs vars2 ds

/-- parse_probabilities of the source. -/
def parse_probabilities (content : List Char) (vars : List Variable) :
    Except PyError (List Variable) :=
  foldProbs vars (probScan content)

/-- parse_file of the source, over the already-read text: the three
sequential passes of the constructor.  Any exception aborts construction and
no partial network is returned. -/
def parse_file (contents : List Char) : Except PyError BayesianNetwork :=
  match parse_network contents with
  | .error e => .error e
  | .ok nm =>
    match parse_probabilities contents (parse_variables contents) with
    | .error e => .error e
    | .ok vars2 => .ok ⟨nm, vars2⟩

set_option maxRecDepth 100000

/-- Sample input: a network header, one parentless variable and its table. -/
def exA : List Char :=
  ("network X \x7b\n\x7d\nvariable A \x7b\n type discrete [ 2 ] \x7b True, False \x7d;\n\x7d\nprobability ( A ) \x7b\n table 0.2, 0.8;\n\x7d\n").data

/-- Sample input extending exA with a second variable conditioned on the
first, with two assignment rows. -/
def exB : List Char :=
  exA ++ ("variable B \x7b\n type discrete [ 2 ] \x7b True, False \x7d;\n\x7d\nprobability ( B | A ) \x7b\n (True) 0.3, 0.7;\n (False) 0.6, 0.4;\n\x7d\n").data

/-- Input whose probability declaration has a parents list but a body that
matches neither the table form nor the per-row form. -/
def exC2 : List Char :=
  ("network X \x7b\n\x7d\nvariable A \x7b\n type discrete [ 2 ] \x7b True, False \x7d;\n\x7d\nprobability ( A | B ) \x7b\ngarbage\n\x7d\n").data

/-- Input with a two-label domain but a one-entry probability table. -/
def exC5 : List Char :=
  ("network X \x7b\n\x7d\nvariable A \x7b\n type discrete [ 2 ] \x7b True, False \x7d;\n\x7d\nprobability ( A ) \x7b\n table 0.5;\n\x7d\n").data

/-- Input whose probability declaration targets an undeclared variable. -/
def exC6 : List Char :=
  ("network X \x7b\n\x7d\nprobability ( A ) \x7b\n table 0.5;\n\x7d\n").data

/-- Input whose table contains a token that is not a float literal. -/
def exC7 : List Char :=
  ("network X \x7b\n\x7d\nvariable A \x7b\n type discrete [ 2 ] \x7b True, False \x7d;\n\x7d\nprobability ( A ) \x7b\n table 0.5, abc;\n\x7d\n").data

/-- Minimal input consisting of just a network header. -/
def exHdr : List Char := ("network X \x7b\n\x7d").data

/-- The variable produced by parsing exA (fallback value never reached). -/
def varAofA : Variable :=
  (((parse_file exA).toOption).bind (fun bn => bn.get_variable ("A").data)).getD
    (Variable.mk [] [] [] [] [])

/-- The conditioned variable produced by parsing exB. -/
def varBofB : Variable :=
  (((parse_file exB).toOption).bind (fun bn => bn.get_variable ("B").data)).getD
    (Variable.mk [] [] [] [] [])

/-- The variable stored by parsing exC5, with its mismatched table. -/
def varC5 : Variable :=
  Variable.mk ("A").data [("True").data, ("False").data] [] [] [PyFloat.finite 5 (-1)]

/-- A run of spaces, used to state whitespace-tolerance families. -/
def spaces (k : Nat) : List Char := List.replicate k ' '

/-- A run of newlines, used to state whitespace-tolerance families. -/
def newlines (k : Nat) : List Char := List.replicate k '\n'

/-- Canonical rendering of one variable declaration, the text
variable NAME folowed by a brace block holding type discrete [ 2 ] and the
brace-delimited VALUES list, spelled character by character so that proofs
about the matcher read off the structure directly. -/
def renderVar (x : List Char × List Char) : List Char :=
  'v' :: 'a' :: 'r' :: 'i' :: 'a' :: 'b' :: 'l' :: 'e' :: ' ' ::
    (x.1 ++ (' ' :: '\x7b' :: '\n' :: ' ' :: 't' :: 'y' :: 'p' :: 'e' :: ' ' ::
      'd' :: 'i' :: 's' :: 'c' :: 'r' :: 'e' :: 't' :: 'e' :: ' ' :: '[' :: ' ' ::
      '2' :: ' ' :: ']' :: ' ' :: '\x7b' :: ' ' ::
      (x.2 ++ ('\x7d' :: ';' :: '\n' :: '\x7d' :: '\n' :: []))))

/-- Concatenation of rendered variable declarations in list order. -/
def renderVars (L : List (List Char × List Char)) : List Char :=
  match L with
  | [] => []
  | x :: xs => renderVar x ++ renderVars xs

/-- The domain-values capture the variable matcher extracts from a rendered
declaration: the values text after its leading spaces, or a single space when
the values text holds nothing but spaces (the one-space backtrack of the
pattern). -/
def capOf (vals : List Char) : List Char :=
  match dropLead isSp vals with
  | [] => [' ']
  | r => r

/-- Concrete declaration list used to witness the declaration-order claim. -/
def lexC8 : List (List Char × List Char) :=
  [(("A").data, ("True, False").data), (("B").data, ("x1").data)]

/-- Lookup over a variable list misses exactly when no listed variable
carries the name. -/
theorem getVarList_eq_none (vars : List Variable) (n : List Char)
    (h : ∀ v ∈ vars, v.name ≠ n) : getVarList vars n = none := by
  induction vars with
  | nil => rfl
  | cons v rest ih =>
    unfold getVarList
    rw [if_neg (h v (by simp))]
    exact ih fun w hw => h w (by simp [hw])

/-- Successful float conversion of a token list preserves its length. -/
theorem floatList_length (ts : List (List Char)) (qs : List PyFloat)
    (h : floatList ts = .ok qs) : qs.length = ts.length := by
  induction ts generalizing qs with
  | nil =>
    unfold floatList at h
    cases h
    rfl
  | cons t ts ih =>
    unfold floatList at h
    cases hf : pyFloatCore (pyStrip t) with
    | none => rw [hf] at h; cases h
    | some q =>
      rw [hf] at h
      cases hrest : floatList ts with
      | error e => rw [hrest] at h; cases h
      | ok qs2 =>
        rw [hrest] at h
        cases h
        simp [ih qs2 hrest]

/-- C1: for every constructed Variable, get_probability with an assignment
whose tuple is a key of the probabilities mapping returns exactly the stored
parsed vector, and with an absent key fails with a KeyError whose message
names that exact tuple. -/
theorem C1_get_probability_contract (v : Variable) (a : List (List Char)) :
    (∀ p, dictFind v.probabilities a = some p → v.get_probability a = .ok p) ∧
    (dictFind v.probabilities a = none →
      v.get_probability a = .error (.keyError (keyErrMsg a))) := by
  constructor
  · intro p h
    unfold Variable.get_probability
    rw [h]
  · intro h
    unfold Variable.get_probability
    rw [h]

/-- Witness for C1 on the variable parsed from exB: the stored row for the
assignment True is returned unchanged, and a missing assignment raises the
KeyError naming the tuple. -/
theorem C1_witness :
    varBofB.get_probability [("True").data] = .ok [PyFloat.finite 3 (-1), PyFloat.finite 7 (-1)] ∧
    varBofB.get_probability [("No").data] =
      .error (.keyError (keyErrMsg [("No").data])) :=
  ⟨(C1_get_probability_contract varBofB [("True").data]).1 [PyFloat.finite 3 (-1), PyFloat.finite 7 (-1)]
      (by decide),
   (C1_get_probability_contract varBofB [("No").data]).2 (by decide)⟩

/-- C2 counterexample: on an input whose probability body (with parents
present) matches neither body form, construction completes normally and the
variable is left with an empty probabilities mapping and empty table, so the
claimed parse failure does not happen. -/
theorem C2_counterexample :
    parse_file exC2 = .ok (BayesianNetwork.mk ("X").data
      [Variable.mk ("A").data [("True").data, ("False").data] [] [("B").data] []]) := by
  decide

/-- C2 amended: a body matching neither form aborts construction only in the
no-parents branch (the AttributeError of the group call on the failed table
match); with a parents text present, rows that match nothing are silently
ignored and construction completes with the parents assigned and the
probabilities mapping unchanged. -/
theorem C2_amended :
    (∀ st n body, tableMatchAt body = none →
      processDecl st (n, [], body) = .error (.attributeError ("group".data))) ∧
    (∀ st n ptext body v, ptext ≠ [] → rowScan body = [] →
      getVarList st n = some v →
      processDecl st (n, ptext, body) = .ok (updateVar st n fun w =>
        { w with parents := (splitComma ptext).map pyStrip,
                 probabilities := v.probabilities })) := by
  constructor
  · intro st n body h
    simp only [processDecl, h]
  · intro st n ptext body v hne hrows hv
    obtain ⟨c, cs, rfl⟩ := List.exists_cons_of_ne_nil hne
    simp only [processDecl, hrows, hv, parseProbRows]

/-- Witness for C2 amended at concrete inputs: a garbage body with no parents
raises, and the exC2 declaration with parents completes leaving the mapping
empty. -/
theorem C2_amended_witness :
    processDecl [varC5] (("A").data, [], ("nonsense").data) =
      .error (.attributeError ("group".data)) ∧
    processDecl [varC5] (("A").data, ("B").data, ("garbage").data) =
      .ok (updateVar [varC5] ("A").data fun w =>
        { w with parents := (splitComma ("B").data).map pyStrip,
                 probabilities := varC5.probabilities }) :=
  ⟨C2_amended.1 [varC5] ("A").data ("nonsense").data (by decide),
   C2_amended.2 [varC5] ("A").data ("B").data ("garbage").data varC5
     (by decide) (by decide) (by decide)⟩

/-- C3: when the network header pattern does not match, the source raises an
uncaught AttributeError (None has no attribute group) instead of defaulting
the name: the except IndexError handler holding the Unnamed network sentinel
is unreachable, since a successful match always has group one. -/
theorem C3_missing_header_crashes (content : List Char)
    (h : matchNetwork content = none) :
    parse_file content = .error (.attributeError ("group".data)) := by
  unfold parse_file parse_network
  rw [h]

/-- Witness for C3: the empty input (and any input not opening with a network
header) makes construction fail rather than default the name. -/
theorem C3_witness :
    parse_file [] = .error (.attributeError ("group".data)) :=
  C3_missing_header_crashes [] (by decide)

/-- C4: get_variable with a name carried by none of the network variables
returns the explicit absent signal None; the loop is total and never
raises. -/
theorem C4_get_variable_absent (bn : BayesianNetwork) (n : List Char)
    (h : ∀ v ∈ bn.vars, v.name ≠ n) : bn.get_variable n = none :=
  getVarList_eq_none bn.vars n h

/-- Witness for C4 on the network parsed from exB, using a name distinct from
both declared variables. -/
theorem C4_witness :
    (BayesianNetwork.mk ("X").data
      [Variable.mk ("A").data [("True").data, ("False").data] [] [] [PyFloat.finite 2 (-1), PyFloat.finite 8 (-1)],
       Variable.mk ("B").data [("True").data, ("False").data]
         [([("True").data], [PyFloat.finite 3 (-1), PyFloat.finite 7 (-1)]),
          ([("False").data], [PyFloat.finite 6 (-1), PyFloat.finite 4 (-1)])] [("A").data] []]).get_variable
      ("C").data = none :=
  C4_get_variable_absent _ ("C").data (by decide)

/-- C5 counterexample: exC5 parses successfully although the stored table has
one entry while the domain has two labels, so the claimed length invariant
fails on a constructed network. -/
theorem C5_counterexample :
    parse_file exC5 = .ok (BayesianNetwork.mk ("X").data [varC5]) ∧
    varC5.table.length ≠ varC5.domain.length := by
  constructor
  · decide
  · decide

/-- C5 amended: a stored probability vector has length equal to the number of
comma-separated tokens of its numeric list; the parser never compares that
number with the domain length, so vectors of a different length (and empty
tables of never-targeted variables) survive construction. -/
theorem C5_amended (st : List Variable) (n body cap : List Char)
    (probs : List PyFloat)
    (h1 : tableMatchAt body = some cap)
    (h2 : floatList (splitComma cap) = .ok probs)
    (h3 : getVarList st n ≠ none) :
    processDecl st (n, [], body) =
      .ok (updateVar st n fun w => { w with table := probs }) ∧
    probs.length = (splitComma cap).length := by
  refine ⟨?_, floatList_length _ _ h2⟩
  cases hv : getVarList st n with
  | none => exact absurd hv h3
  | some v => simp only [processDecl, h1, h2, hv]

/-- Witness for C5 amended: the exC5 table declaration stores a one-entry
vector for the two-label variable. -/
theorem C5_amended_witness :
    processDecl [Variable.mk ("A").data [("True").data, ("False").data] [] [] []]
      (("A").data, [], (" table 0.5;").data) =
      .ok (updateVar [Variable.mk ("A").data [("True").data, ("False").data] [] [] []]
        ("A").data fun w => { w with table := [PyFloat.finite 5 (-1)] }) ∧
    ([PyFloat.finite 5 (-1)] : List PyFloat).length = (splitComma ("0.5").data).length :=
  C5_amended [Variable.mk ("A").data [("True").data, ("False").data] [] [] []]
    ("A").data (" table 0.5;").data ("0.5").data [PyFloat.finite 5 (-1)]
    (by decide) (by decide) (by decide)

/-- Updating a variable in place with a field change that keeps the name
leaves the name sequence of the list unchanged. -/
theorem updateVar_map_name (vars : List Variable) (n : List Char)
    (f : Variable → Variable) (hf : ∀ w, (f w).name = w.name) :
    (updateVar vars n f).map Variable.name = vars.map Variable.name := by
  induction vars with
  | nil => rfl
  | cons v rest ih =>
    unfold updateVar
    by_cases hv : v.name = n
    · simp [hv, hf]
    · simp [hv, ih]

/-- Processing one probability declaration never changes which names the
variable list carries. -/
theorem processDecl_names (st st2 : List Variable)
    (d : List Char × List Char × List Char) (h : processDecl st d = .ok st2) :
    st2.map Variable.name = st.map Variable.name := by
  unfold processDecl at h
  split at h
  · split at h
    · cases h
    · split at h
      · cases h
      · split at h
        · cases h
        · cases h
          exact updateVar_map_name st d.1 _ fun w => rfl
  · split at h
    · cases h
    · split at h
      · cases h
      · cases h
        exact updateVar_map_name st d.1 _ fun w => rfl

/-- When the target variable of a probability declaration is not in the
list, processing the declaration raises some exception: the parents branch
fails on the attribute assignment through None, and the no-parents branch
fails on the failed table match, a bad float token, or the table assignment
through None, in the order of the source. -/
theorem processDecl_error_absent (st : List Variable)
    (d : List Char × List Char × List Char) (h : getVarList st d.1 = none) :
    ∃ e, processDecl st d = .error e := by
  obtain ⟨n, pt, body⟩ := d
  cases pt with
  | nil =>
    cases ht : tableMatchAt body with
    | none =>
      exact ⟨.attributeError ("group".data), by simp only [processDecl, ht]⟩
    | some cap =>
      cases hf : floatList (splitComma cap) with
      | error e => exact ⟨e, by simp only [processDecl, ht, hf]⟩
      | ok probs =>
        exact ⟨.attributeError ("table".data), by simp only [processDecl, ht, hf, h]⟩
  | cons c cs =>
    exact ⟨.attributeError ("parents".data), by simp only [processDecl, h]⟩

/-- A declaration list containing a declaration whose target name is absent
from the variable list makes the sequential pass raise: either an earlier
declaration raises first, or the state reaches that declaration with the
name still absent (processing never changes the names) and it raises. -/
theorem foldProbs_error_absent (n ptext body : List Char) :
    ∀ (ds : List (List Char × List Char × List Char)) (st : List Variable),
      (n, ptext, body) ∈ ds → n ∉ st.map Variable.name →
      ∃ e, foldProbs st ds = .error e := by
  intro ds
  induction ds with
  | nil => intro st hmem _; cases hmem
  | cons d ds ih =>
    intro st hmem habs
    have habsL : getVarList st n = none := by
      refine getVarList_eq_none st n fun v hv hveq => habs ?_
      rw [List.mem_map]
      exact ⟨v, hv, hveq⟩
    cases hp : processDecl st d with
    | error e => exact ⟨e, by simp only [foldProbs, hp]⟩
    | ok st2 =>
      rcases List.mem_cons.mp hmem with heq | hmem2
      · cases heq
        obtain ⟨e, he⟩ := processDecl_error_absent st (n, ptext, body) habsL
        rw [hp] at he
        cases he
      · have hnames := processDecl_names st st2 d hp
        obtain ⟨e, he⟩ := ih st2 hmem2 (by rw [hnames]; exact habs)
        exact ⟨e, by simp only [foldProbs, hp]; exact he⟩

/-- C6: a probability declaration naming a target variable that is not among
the declared variables makes construction fail at build time (through the
unresolved lookup, whose None result makes the subsequent attribute access
raise) rather than complete. -/
theorem C6_undeclared_target (contents n ptext body : List Char)
    (hmem : (n, ptext, body) ∈ probScan contents)
    (habs : ∀ v ∈ parse_variables contents, v.name ≠ n) :
    ∃ e, parse_file contents = .error e := by
  unfold parse_file
  cases hn : parse_network contents with
  | error e => exact ⟨e, rfl⟩
  | ok nm =>
    have habs2 : n ∉ (parse_variables contents).map Variable.name := by
      intro hmm
      rw [List.mem_map] at hmm
      obtain ⟨v, hv, hveq⟩ := hmm
      exact habs v hv hveq
    obtain ⟨e, he⟩ := foldProbs_error_absent n ptext body (probScan contents)
      (parse_variables contents) hmem habs2
    exact ⟨e, by simp only [parse_probabilities, he]⟩

/-- Witness for C6: exC6 declares no variables at all yet carries a
probability declaration for A, and its construction raises. -/
theorem C6_witness : ∃ e, parse_file exC6 = .error e :=
  C6_undeclared_target exC6 ("A").data [] (" table 0.5;").data
    (by decide) (by decide)

/-- A token list containing a token rejected by float conversion makes the
conversion of the list raise a ValueError. -/
theorem floatList_error_of_bad (ts : List (List Char)) (t : List Char)
    (hmem : t ∈ ts) (hbad : pyFloatCore (pyStrip t) = none) :
    ∃ e, floatList ts = .error e := by
  induction ts with
  | nil => cases hmem
  | cons u ts ih =>
    cases hu : pyFloatCore (pyStrip u) with
    | none => exact ⟨.valueError u, by simp only [floatList, hu]⟩
    | some q =>
      rcases List.mem_cons.mp hmem with heq | hmem2
      · rw [← heq, hbad] at hu
        cases hu
      · obtain ⟨e, he⟩ := ih hmem2
        exact ⟨e, by simp only [floatList, hu, he]⟩

/-- A row list containing a row with a rejected numeric token makes the row
loop raise, from any starting mapping. -/
theorem parseProbRows_error_of_bad (kt vt t : List Char)
    (ht : t ∈ splitComma vt) (hbad : pyFloatCore (pyStrip t) = none) :
    ∀ (rows : List (List Char × List Char)), (kt, vt) ∈ rows →
      ∀ d, ∃ e, parseProbRows rows d = .error e := by
  intro rows
  induction rows with
  | nil => intro hmem _; cases hmem
  | cons r rows ih =>
    intro hmem d
    obtain ⟨k0, v0⟩ := r
    cases hf : floatList (splitComma v0) with
    | error e => exact ⟨e, by simp only [parseProbRows, hf]⟩
    | ok prob =>
      rcases List.mem_cons.mp hmem with heq | hmem2
      · injection heq with h1 h2
        subst h1
        subst h2
        obtain ⟨e, he⟩ := floatList_error_of_bad (splitComma vt) t ht hbad
        rw [hf] at he
        cases he
      · obtain ⟨e, he⟩ := ih hmem2 (dictInsert d ((splitComma k0).map pyStrip) prob)
        exact ⟨e, by simp only [parseProbRows, hf]; exact he⟩

/-- A probability declaration carrying a rejected numeric token in its
matched numeric lists raises from every variable-list state: conversion
happens before the table assignment, and in the parents branch either the
target is absent (AttributeError) or the row loop raises (ValueError). -/
theorem processDecl_error_of_bad_token (st : List Variable)
    (n ptext body : List Char)
    (hbad : (ptext = [] ∧ ∃ cap, tableMatchAt body = some cap ∧
              ∃ t ∈ splitComma cap, pyFloatCore (pyStrip t) = none)
          ∨ (ptext ≠ [] ∧ ∃ r ∈ rowScan body,
              ∃ t ∈ splitComma r.2, pyFloatCore (pyStrip t) = none)) :
    ∃ e, processDecl st (n, ptext, body) = .error e := by
  rcases hbad with ⟨rfl, cap, hcap, t, ht, hbadt⟩ | ⟨hne, r, hr, t, ht, hbadt⟩
  · obtain ⟨e, he⟩ := floatList_error_of_bad (splitComma cap) t ht hbadt
    exact ⟨e, by simp only [processDecl, hcap, he]⟩
  · obtain ⟨c, cs, rfl⟩ := List.exists_cons_of_ne_nil hne
    cases hv : getVarList st n with
    | none => exact ⟨.attributeError ("parents".data), by simp only [processDecl, hv]⟩
    | some v =>
      obtain ⟨e, he⟩ := parseProbRows_error_of_bad r.1 r.2 t ht hbadt
        (rowScan body) (by simpa using hr) v.probabilities
      exact ⟨e, by simp only [processDecl, hv, he]⟩

/-- A declaration list containing a declaration that raises from every state
makes the sequential pass raise. -/
theorem foldProbs_error_of_always (d : List Char × List Char × List Char) :
    ∀ (ds : List (List Char × List Char × List Char)) (st : List Variable),
      d ∈ ds → (∀ st2, ∃ e, processDecl st2 d = .error e) →
      ∃ e, foldProbs st ds = .error e := by
  intro ds
  induction ds with
  | nil => intro st hmem _; cases hmem
  | cons d0 ds ih =>
    intro st hmem hfail
    cases hp : processDecl st d0 with
    | error e => exact ⟨e, by simp only [foldProbs, hp]⟩
    | ok st2 =>
      rcases List.mem_cons.mp hmem with heq | hmem2
      · obtain ⟨e, he⟩ := hfail st
        rw [heq, hp] at he
        cases he
      · obtain ⟨e, he⟩ := ih st2 hmem2 hfail
        exact ⟨e, by simp only [foldProbs, hp]; exact he⟩

/-- C7: a probability token of a matched table or row numeric list that is
not a float literal makes construction fail with a fatal error; it is never
replaced by zero or skipped. -/
theorem C7_bad_float_token (contents n ptext body : List Char)
    (hmem : (n, ptext, body) ∈ probScan contents)
    (hbad : (ptext = [] ∧ ∃ cap, tableMatchAt body = some cap ∧
              ∃ t ∈ splitComma cap, pyFloatCore (pyStrip t) = none)
          ∨ (ptext ≠ [] ∧ ∃ r ∈ rowScan body,
              ∃ t ∈ splitComma r.2, pyFloatCore (pyStrip t) = none)) :
    ∃ e, parse_file contents = .error e := by
  unfold parse_file
  cases hn : parse_network contents with
  | error e => exact ⟨e, rfl⟩
  | ok nm =>
    obtain ⟨e, he⟩ := foldProbs_error_of_always (n, ptext, body)
      (probScan contents) (parse_variables contents) hmem
      (fun st2 => processDecl_error_of_bad_token st2 n ptext body hbad)
    exact ⟨e, by simp only [parse_probabilities, he]⟩

/-- Witness for C7: the token abc of exC7 is rejected by float conversion
and construction raises. -/
theorem C7_witness : ∃ e, parse_file exC7 = .error e :=
  C7_bad_float_token exC7 ("A").data [] (" table 0.5, abc;").data
    (by decide)
    (Or.inl ⟨rfl, ("0.5, abc").data, by decide, by decide⟩)

/-- Maximal munch of a character failing the class stops immediately. -/
theorem munch_cons_neg (p : Char → Bool) (c : Char) (l : List Char)
    (h : p c = false) : munch p (c :: l) = ([], c :: l) := by
  simp [munch, h]

/-- Maximal munch consumes a fully satisfying prefix and continues. -/
theorem munch_append_all (p : Char → Bool) (a l : List Char)
    (h : ∀ c ∈ a, p c = true) :
    munch p (a ++ l) = (a ++ (munch p l).1, (munch p l).2) := by
  induction a with
  | nil => simp
  | cons c a ih =>
    have hc : p c = true := h c (by simp)
    simp only [List.cons_append, munch, hc, if_true]
    rw [show a.append l = a ++ l from rfl, ih fun x hx => h x (by simp [hx])]

/-- Maximal munch of a list whose head (if any) fails the class is empty. -/
theorem munch_none (p : Char → Bool) (l : List Char)
    (h : ∀ c ∈ l, p c = false) : munch p l = ([], l) := by
  cases l with
  | nil => rfl
  | cons c cs => exact munch_cons_neg p c cs (h c (by simp))

/-- Maximal munch over a satisfying block stops exactly at the first failing
character. -/
theorem munch_stops (p : Char → Bool) (a : List Char) (c : Char) (l : List Char)
    (ha : ∀ x ∈ a, p x = true) (hc : p c = false) :
    munch p (a ++ c :: l) = (a, c :: l) := by
  rw [munch_append_all p a (c :: l) ha, munch_cons_neg p c l hc]
  simp

/-- A literal is consumed from a text that starts with it. -/
theorem eatLit_append (a l : List Char) : eatLit a (a ++ l) = some l := by
  induction a with
  | nil => rfl
  | cons c a ih => simp [eatLit, ih]

/-- Trailing characters of the class are removed even across an append. -/
theorem dropTrail_append_sat (p : Char → Bool) (a b : List Char)
    (h : ∀ c ∈ b, p c = true) : dropTrail p (a ++ b) = dropTrail p a := by
  unfold dropTrail
  rw [List.reverse_append,
    munch_append_all p b.reverse a.reverse fun c hc => h c (by simpa using hc)]

/-- A list with no character of the class loses nothing at its tail. -/
theorem dropTrail_none (p : Char → Bool) (a : List Char)
    (h : ∀ c ∈ a, p c = false) : dropTrail p a = a := by
  unfold dropTrail
  rw [munch_none p a.reverse fun c hc => h c (by simpa using hc)]
  simp

/-- Every character of a space run is a space. -/
theorem spaces_sat (k : Nat) : ∀ c ∈ spaces k, isSp c = true := by
  intro c hc
  rw [spaces, List.mem_replicate] at hc
  rw [hc.2]
  rfl

/-- Every character of a newline run is a newline. -/
theorem newlines_sat (k : Nat) : ∀ c ∈ newlines k, isNl c = true := by
  intro c hc
  rw [newlines, List.mem_replicate] at hc
  rw [hc.2]
  rfl

/-- The network-header matcher accepts the header with any attached amounts
of tolerated whitespace and returns the same name: leading spaces, at least
one space before and any spaces after the name, one or more newlines and
then spaces inside the braces, anything after the closing brace. -/
theorem matchNetwork_ws (k j m n p : Nat) (nm tail : List Char)
    (h1 : nm ≠ []) (h2 : ∀ c ∈ nm, c ≠ '\x7b' ∧ c ≠ ' ') :
    matchNetwork (spaces k ++ (("network".data) ++ (spaces (j + 1) ++ (nm ++
      (spaces m ++ ('\x7b' :: (newlines (n + 1) ++ (spaces p ++
        ('\x7d' :: tail))))))))) = some nm := by
  obtain ⟨c0, nm2, rfl⟩ := List.exists_cons_of_ne_nil h1
  have hA : munch isSp (spaces k ++ (("network".data) ++ (spaces (j + 1) ++
      ((c0 :: nm2) ++ (spaces m ++ ('\x7b' :: (newlines (n + 1) ++ (spaces p ++
        ('\x7d' :: tail))))))))) =
      (spaces k, ("network".data) ++ (spaces (j + 1) ++ ((c0 :: nm2) ++
        (spaces m ++ ('\x7b' :: (newlines (n + 1) ++ (spaces p ++
          ('\x7d' :: tail)))))))) := by
    rw [show ("network".data) ++ (spaces (j + 1) ++ ((c0 :: nm2) ++
        (spaces m ++ ('\x7b' :: (newlines (n + 1) ++ (spaces p ++
          ('\x7d' :: tail))))))) = 'n' :: (("etwork".data) ++ (spaces (j + 1) ++
        ((c0 :: nm2) ++ (spaces m ++ ('\x7b' :: (newlines (n + 1) ++
          (spaces p ++ ('\x7d' :: tail)))))))) from rfl]
    exact munch_stops isSp (spaces k) 'n' _ (spaces_sat k) rfl
  have hB : eatLit ("network".data) (("network".data) ++ (spaces (j + 1) ++
      ((c0 :: nm2) ++ (spaces m ++ ('\x7b' :: (newlines (n + 1) ++ (spaces p ++
        ('\x7d' :: tail)))))))) = some (spaces (j + 1) ++ ((c0 :: nm2) ++
      (spaces m ++ ('\x7b' :: (newlines (n + 1) ++ (spaces p ++
        ('\x7d' :: tail))))))) := eatLit_append _ _
  have hc0 : isSp c0 = false := by
    have := (h2 c0 (by simp)).2
    simp [isSp, this]
  have hC : munch isSp (spaces (j + 1) ++ ((c0 :: nm2) ++ (spaces m ++
      ('\x7b' :: (newlines (n + 1) ++ (spaces p ++ ('\x7d' :: tail))))))) =
      (spaces (j + 1), (c0 :: nm2) ++ (spaces m ++ ('\x7b' :: (newlines (n + 1) ++
        (spaces p ++ ('\x7d' :: tail)))))) := by
    rw [show (c0 :: nm2) ++ (spaces m ++ ('\x7b' :: (newlines (n + 1) ++
        (spaces p ++ ('\x7d' :: tail))))) = c0 :: (nm2 ++ (spaces m ++
        ('\x7b' :: (newlines (n + 1) ++ (spaces p ++ ('\x7d' :: tail))))))
      from rfl]
    exact munch_stops isSp (spaces (j + 1)) c0 _ (spaces_sat (j + 1)) hc0
  have hD : munch (fun c => !(c == '\x7b')) ((c0 :: nm2) ++ (spaces m ++
      ('\x7b' :: (newlines (n + 1) ++ (spaces p ++ ('\x7d' :: tail)))))) =
      ((c0 :: nm2) ++ spaces m, '\x7b' :: (newlines (n + 1) ++ (spaces p ++
        ('\x7d' :: tail)))) := by
    rw [show (c0 :: nm2) ++ (spaces m ++ ('\x7b' :: (newlines (n + 1) ++
        (spaces p ++ ('\x7d' :: tail))))) = ((c0 :: nm2) ++ spaces m) ++
        ('\x7b' :: (newlines (n + 1) ++ (spaces p ++ ('\x7d' :: tail))))
      from by simp]
    refine munch_stops _ _ '\x7b' _ ?_ (by simp)
    intro x hx
    rcases List.mem_append.mp hx with hx1 | hx2
    · simp [(h2 x hx1).1]
    · have := (List.mem_replicate.mp hx2).2
      simp [this]
  have hE : dropTrail isSp ((c0 :: nm2) ++ spaces m) = c0 :: nm2 := by
    rw [dropTrail_append_sat isSp (c0 :: nm2) (spaces m) (spaces_sat m)]
    refine dropTrail_none isSp (c0 :: nm2) ?_
    intro x hx
    have := (h2 x hx).2
    simp [isSp, this]
  have hF : munch isNl (newlines (n + 1) ++ (spaces p ++ ('\x7d' :: tail))) =
      (newlines (n + 1), spaces p ++ ('\x7d' :: tail)) := by
    cases p with
    | zero =>
      rw [show spaces 0 ++ ('\x7d' :: tail) = '\x7d' :: tail from rfl]
      exact munch_stops isNl (newlines (n + 1)) '\x7d' tail (newlines_sat (n + 1)) rfl
    | succ q =>
      rw [show spaces (q + 1) ++ ('\x7d' :: tail) = ' ' :: (spaces q ++
        ('\x7d' :: tail)) from rfl]
      exact munch_stops isNl (newlines (n + 1)) ' ' _ (newlines_sat (n + 1)) rfl
  have hG : munch isSp (spaces p ++ ('\x7d' :: tail)) = (spaces p, '\x7d' :: tail) :=
    munch_stops isSp (spaces p) '\x7d' tail (spaces_sat p) rfl
  simp only [matchNetwork, hA, hB, hC, hD, hE, hF, hG]
  simp [spaces, newlines]

/-- C9 amended: whitespace insensitivity is positional, holding only where
the patterns provide for it.  At the network header every tolerated amount
of whitespace (any leading spaces, any extra spaces around the name, any
extra blank lines and trailing spaces inside the braces) parses to the same
network name, but an extra blank line before the network keyword (see the
counterexample) is not tolerated and crashes construction instead. -/
theorem C9_amended_ws_positional (k j m n p : Nat) (nm tail : List Char)
    (h1 : nm ≠ []) (h2 : ∀ c ∈ nm, c ≠ '\x7b' ∧ c ≠ ' ') :
    parse_network (spaces k ++ (("network".data) ++ (spaces (j + 1) ++ (nm ++
      (spaces m ++ ('\x7b' :: (newlines (n + 1) ++ (spaces p ++
        ('\x7d' :: tail))))))))) = .ok nm := by
  unfold parse_network
  rw [matchNetwork_ws k j m n p nm tail h1 h2]

/-- Witness for C9 amended at two concrete whitespace choices of the same
header, both yielding the name X. -/
theorem C9_amended_witness :
    parse_network (spaces 0 ++ (("network".data) ++ (spaces 1 ++ (("X").data ++
      (spaces 1 ++ ('\x7b' :: (newlines 1 ++ (spaces 0 ++
        ('\x7d' :: []))))))))) = .ok (("X").data) ∧
    parse_network (spaces 3 ++ (("network".data) ++ (spaces 2 ++ (("X").data ++
      (spaces 0 ++ ('\x7b' :: (newlines 4 ++ (spaces 2 ++
        ('\x7d' :: (" trailing").data))))))))) = .ok (("X").data) :=
  ⟨C9_amended_ws_positional 0 0 1 0 0 (("X").data) [] (by decide) (by decide),
   C9_amended_ws_positional 3 1 0 3 2 (("X").data) ((" trailing").data)
     (by decide) (by decide)⟩

/-- C9 counterexample: two inputs differing only in one extra blank line
before the network keyword; the first parses, the second crashes with the
AttributeError of the unmatched header, so the two do not produce
structurally identical networks. -/
theorem C9_counterexample :
    parse_file exHdr = .ok (BayesianNetwork.mk (("X").data) []) ∧
    parse_file ('\n' :: exHdr) = .error (.attributeError ("group".data)) := by
  constructor
  · decide
  · decide

/-- Maximal munch distributes over an append whose left part is consumed
entirely. -/
theorem munch_append_full (p : Char → Bool) (a l : List Char)
    (h : (munch p a).2 = []) :
    munch p (a ++ l) = ((munch p a).1 ++ (munch p l).1, (munch p l).2) := by
  induction a with
  | nil => simp [munch]
  | cons c a ih =>
    by_cases hc : p c = true
    · simp only [munch, hc, if_true, List.cons_append, List.append_eq] at h ⊢
      rw [ih h]
    · rw [munch_cons_neg p c a (by simpa using hc)] at h
      cases h

/-- Maximal munch over an append stops inside a left part that it does not
consume entirely. -/
theorem munch_append_stop (p : Char → Bool) (a l : List Char)
    (h : (munch p a).2 ≠ []) :
    munch p (a ++ l) = ((munch p a).1, (munch p a).2 ++ l) := by
  induction a with
  | nil => simp [munch] at h
  | cons c a ih =>
    by_cases hc : p c = true
    · simp only [munch, hc, if_true, List.cons_append, List.append_eq] at h ⊢
      rw [ih h]
    · have hcf : p c = false := by simpa using hc
      rw [List.cons_append, munch_cons_neg p c (a ++ l) hcf, munch_cons_neg p c a hcf]
      simp

/-- The unconsumed remainder of a munch only holds characters of the
original list. -/
theorem munch_snd_mem (p : Char → Bool) (l : List Char) (c : Char)
    (h : c ∈ (munch p l).2) : c ∈ l := by
  induction l with
  | nil => simp [munch] at h
  | cons d t ih =>
    by_cases hd : p d = true
    · simp only [munch, hd, if_true] at h
      exact List.mem_cons_of_mem d (ih h)
    · rw [munch_cons_neg p d t (by simpa using hd)] at h
      exact h

/-- The variable matcher accepts a rendered declaration at the head of the
input and produces the name, the domain-size digits and the values capture,
leaving the trailing newline and the rest of the input unconsumed. -/
theorem varCore_render (nm vals rest : List Char)
    (h1 : nm ≠ []) (h2 : ∀ c ∈ nm, c ≠ ' ' ∧ c ≠ '\x7b')
    (h3 : ∀ c ∈ vals, isDomChar c = true) :
    varCore (renderVar (nm, vals) ++ rest) =
      some ((nm, ['2'], capOf vals), '\n' :: rest) := by
  obtain ⟨c0, nm2, rfl⟩ := List.exists_cons_of_ne_nil h1
  have hc0sp : c0 ≠ ' ' := (h2 c0 (by simp)).1
  have hc0br : c0 ≠ '\x7b' := (h2 c0 (by simp)).2
  have hname : munch (fun c => !(c == '\x7b' || c == ' '))
      (nm2 ++ (' ' :: '\x7b' :: '\n' :: ' ' :: 't' :: 'y' :: 'p' :: 'e' :: ' ' ::
        'd' :: 'i' :: 's' :: 'c' :: 'r' :: 'e' :: 't' :: 'e' :: ' ' :: '[' :: ' ' ::
        '2' :: ' ' :: ']' :: ' ' :: '\x7b' :: ' ' ::
        (vals ++ ('\x7d' :: ';' :: '\n' :: '\x7d' :: '\n' :: rest)))) =
      (nm2, ' ' :: '\x7b' :: '\n' :: ' ' :: 't' :: 'y' :: 'p' :: 'e' :: ' ' ::
        'd' :: 'i' :: 's' :: 'c' :: 'r' :: 'e' :: 't' :: 'e' :: ' ' :: '[' :: ' ' ::
        '2' :: ' ' :: ']' :: ' ' :: '\x7b' :: ' ' ::
        (vals ++ ('\x7d' :: ';' :: '\n' :: '\x7d' :: '\n' :: rest))) := by
    refine munch_stops _ _ _ _ ?_ (by decide)
    intro x hx
    simp [(h2 x (by simp [hx])).1, (h2 x (by simp [hx])).2]
  cases hlead : (munch isSp vals).2 with
  | nil =>
    have hv : munch isSp (vals ++ ('\x7d' :: ';' :: '\n' :: '\x7d' :: '\n' :: rest)) =
        ((munch isSp vals).1, '\x7d' :: ';' :: '\n' :: '\x7d' :: '\n' :: rest) := by
      rw [munch_append_full isSp vals _ hlead]
      simp [munch, isSp]
    simp at hname hv
    simp [varCore, renderVar, varAfterType, varTail, munch, eatLit, isSp, isNl,
      isDomChar, hc0sp, hc0br, hname, hv, capOf, dropLead, hlead]
  | cons c1 core =>
    have hv : munch isSp (vals ++ ('\x7d' :: ';' :: '\n' :: '\x7d' :: '\n' :: rest)) =
        ((munch isSp vals).1,
          c1 :: (core ++ ('\x7d' :: ';' :: '\n' :: '\x7d' :: '\n' :: rest))) := by
      rw [munch_append_stop isSp vals _ (by rw [hlead]; simp), hlead]
      simp
    have hdom : munch isDomChar
        (c1 :: (core ++ ('\x7d' :: ';' :: '\n' :: '\x7d' :: '\n' :: rest))) =
        (c1 :: core, '\x7d' :: ';' :: '\n' :: '\x7d' :: '\n' :: rest) := by
      rw [show (c1 :: (core ++ ('\x7d' :: ';' :: '\n' :: '\x7d' :: '\n' :: rest))) =
        (c1 :: core) ++ ('\x7d' :: ';' :: '\n' :: '\x7d' :: '\n' :: rest) from rfl]
      refine munch_stops _ _ _ _ ?_ (by decide)
      intro x hx
      exact h3 x (munch_snd_mem isSp vals x (by rw [hlead]; exact hx))
    simp at hname hv hdom
    simp [varCore, renderVar, varAfterType, varTail, munch, eatLit, isSp, isNl,
      isDomChar, hc0sp, hc0br, hname, hv, hdom, capOf, dropLead, hlead]

/-- A rendered declaration spans at least two characters, which bounds the
fuel the scanner spends on it. -/
theorem renderVar_length_ge (x : List Char × List Char) :
    2 ≤ (renderVar x).length := by
  simp [renderVar]

/-- The variable matcher rejects an input opening with a newline, the
character separating consecutive rendered declarations. -/
theorem varCore_newline (J : List Char) : varCore ('\n' :: J) = none := rfl

/-- Scanning a concatenation of rendered declarations yields their captures
in list order, one per declaration. -/
theorem varScan_renders : ∀ (L : List (List Char × List Char)) (f : Nat),
    (∀ x ∈ L, (x.1 ≠ [] ∧ ∀ c ∈ x.1, c ≠ ' ' ∧ c ≠ '\x7b') ∧
      (∀ c ∈ x.2, isDomChar c = true)) →
    (renderVars L).length < f →
    scanAll varCore f (renderVars L) = L.map (fun x => (x.1, ['2'], capOf x.2)) := by
  intro L
  induction L with
  | nil =>
    intro f _ _
    cases f with
    | zero => rfl
    | succ f => rfl
  | cons x L ih =>
    intro f hwf hf
    obtain ⟨nm, vals⟩ := x
    have hlen : 2 ≤ (renderVar (nm, vals)).length := renderVar_length_ge (nm, vals)
    rw [show renderVars ((nm, vals) :: L) = renderVar (nm, vals) ++ renderVars L
      from rfl] at hf ⊢
    rw [List.length_append] at hf
    obtain ⟨f1, rfl⟩ : ∃ g, f = g + 1 := ⟨f - 1, by omega⟩
    obtain ⟨f2, rfl⟩ : ∃ g, f1 = g + 1 := ⟨f1 - 1, by omega⟩
    have hcore := varCore_render nm vals (renderVars L)
      (hwf (nm, vals) (by simp)).1.1 (hwf (nm, vals) (by simp)).1.2
      (hwf (nm, vals) (by simp)).2
    simp only [scanAll, hcore, varCore_newline]
    rw [ih f2 (fun y hy => hwf y (by simp [hy])) (by omega)]
    simp

/-- Stripping absorbs a leading whitespace character. -/
theorem pyStrip_cons_ws (c : Char) (g : List Char) (h : isPyWs c = true) :
    pyStrip (c :: g) = pyStrip g := by
  unfold pyStrip dropLead
  rw [show munch isPyWs (c :: g) =
    (c :: (munch isPyWs g).1, (munch isPyWs g).2) from by simp [munch, h]]

/-- A comma split always produces at least one piece. -/
theorem splitComma_ne_nil (l : List Char) : splitComma l ≠ [] := by
  cases l with
  | nil => simp [splitComma]
  | cons c t =>
    simp only [splitComma]
    split
    · simp
    · split <;> simp

/-- Dropping leading spaces before the comma split changes nothing once every
piece is stripped: only the first piece loses characters, and those are
whitespace removed by the strip anyway. -/
theorem splitComma_dropLead_strip (vals : List Char) :
    (splitComma (dropLead isSp vals)).map pyStrip = (splitComma vals).map pyStrip := by
  induction vals with
  | nil => rfl
  | cons c t ih =>
    by_cases hc : c = ' '
    · subst hc
      rw [show dropLead isSp (' ' :: t) = dropLead isSp t from by
        simp [dropLead, munch, isSp]]
      rw [ih]
      rw [show splitComma (' ' :: t) =
        (match splitComma t with | g :: gs => (' ' :: g) :: gs | [] => [[' ']]) from by
        simp [splitComma]]
      cases hsp : splitComma t with
      | nil => exact absurd hsp (splitComma_ne_nil t)
      | cons g gs =>
        simp only [List.map_cons]
        rw [pyStrip_cons_ws ' ' g rfl]
    · rw [show dropLead isSp (c :: t) = c :: t from by simp [dropLead, munch, isSp, hc]]

/-- The stripped comma split of the values capture equals the stripped comma
split of the raw values text. -/
theorem capOf_domain (vals : List Char) :
    (splitComma (capOf vals)).map pyStrip = (splitComma vals).map pyStrip := by
  cases h : dropLead isSp vals with
  | nil =>
    have h2 := splitComma_dropLead_strip vals
    rw [h] at h2
    simp only [capOf, h]
    rw [← h2]
    rfl
  | cons c r =>
    have h2 := splitComma_dropLead_strip vals
    rw [h] at h2
    simp only [capOf, h]
    exact h2

/-- In-place update with a field change keeping name and domain leaves the
name-domain sequence of the list unchanged. -/
theorem updateVar_map_namedom (vars : List Variable) (n : List Char)
    (f : Variable → Variable)
    (hf : ∀ w, ((f w).name, (f w).domain) = (w.name, w.domain)) :
    (updateVar vars n f).map (fun v => (v.name, v.domain)) =
      vars.map (fun v => (v.name, v.domain)) := by
  induction vars with
  | nil => rfl
  | cons v rest ih =>
    unfold updateVar
    by_cases hv : v.name = n
    · simp [hv, hf]
    · simp [hv, ih]

/-- Processing one probability declaration changes neither the names nor the
domains of the variable list. -/
theorem processDecl_namedoms (st st2 : List Variable)
    (d : List Char × List Char × List Char) (h : processDecl st d = .ok st2) :
    st2.map (fun v => (v.name, v.domain)) = st.map (fun v => (v.name, v.domain)) := by
  unfold processDecl at h
  split at h
  · split at h
    · cases h
    · split at h
      · cases h
      · split at h
        · cases h
        · cases h
          exact updateVar_map_namedom st d.1 _ fun w => rfl
  · split at h
    · cases h
    · split at h
      · cases h
      · cases h
        exact updateVar_map_namedom st d.1 _ fun w => rfl

/-- The whole probability pass preserves the name-domain sequence of the
variable list. -/
theorem foldProbs_namedoms (ds : List (List Char × List Char × List Char)) :
    ∀ (st st2 : List Variable), foldProbs st ds = .ok st2 →
      st2.map (fun v => (v.name, v.domain)) = st.map (fun v => (v.name, v.domain)) := by
  induction ds with
  | nil =>
    intro st st2 h
    cases h
    rfl
  | cons d ds ih =>
    intro st st2 h
    cases hp : processDecl st d with
    | error e =>
      simp only [foldProbs, hp] at h
      cases h
    | ok stm =>
      simp only [foldProbs, hp] at h
      rw [ih stm st2 h, processDecl_namedoms st stm d hp]

/-- C8: for every list of variable declarations rendered into source text in
a given order, the variables sequence built by the variable pass lists the
variables in exactly that order, each with its domain labels trimmed in
their original comma order; and the probability pass never changes the name
or domain sequence, so the constructed network keeps that order. -/
theorem C8_declaration_order (L : List (List Char × List Char))
    (hwf : ∀ x ∈ L, (x.1 ≠ [] ∧ ∀ c ∈ x.1, c ≠ ' ' ∧ c ≠ '\x7b') ∧
      (∀ c ∈ x.2, isDomChar c = true)) :
    ((parse_variables (renderVars L)).map fun v => (v.name, v.domain)) =
      (L.map fun x => (x.1, (splitComma x.2).map pyStrip)) ∧
    ∀ contents vars2, parse_probabilities contents (parse_variables contents) = .ok vars2 →
      (vars2.map fun v => (v.name, v.domain)) =
        ((parse_variables contents).map fun v => (v.name, v.domain)) := by
  constructor
  · unfold parse_variables varScan
    rw [varScan_renders L ((renderVars L).length + 1) hwf (by omega)]
    rw [List.map_map, List.map_map]
    refine List.map_congr_left ?_
    intro x hx
    simp [capOf_domain]
  · intro contents vars2 h
    exact foldProbs_namedoms (probScan contents) (parse_variables contents) vars2 h

/-- Witness for C8: a concrete two-declaration list parses into two
variables in declaration order with trimmed domains, and the probability
pass of exA keeps the name-domain sequence of its variable. -/
theorem C8_witness :
    (((parse_variables (renderVars lexC8)).map fun v => (v.name, v.domain)) =
      (lexC8.map fun x => (x.1, (splitComma x.2).map pyStrip))) ∧
    (([Variable.mk ("A").data [("True").data, ("False").data] [] [] [PyFloat.finite 2 (-1), PyFloat.finite 8 (-1)]].map
        fun v => (v.name, v.domain)) =
      ((parse_variables exA).map fun v => (v.name, v.domain))) :=
  ⟨(C8_declaration_order lexC8 (by decide)).1,
   (C8_declaration_order lexC8 (by decide)).2 exA
     [Variable.mk ("A").data [("True").data, ("False").data] [] [] [PyFloat.finite 2 (-1), PyFloat.finite 8 (-1)]]
     (by decide)⟩

/-- C10: for a Variable whose probabilities mapping is empty (the state of
every parentless variable, whose unconditional table lives only in the table
attribute), get_probability raises a KeyError for every assignment, and the
lookup never consults the table: changing the table does not change the
result. -/
theorem C10_lookup_ignores_table (v : Variable) (a : List (List Char))
    (h : v.probabilities = []) :
    v.get_probability a = .error (.keyError (keyErrMsg a)) ∧
    ∀ t, Variable.get_probability { v with table := t } a = v.get_probability a := by
  constructor
  · unfold Variable.get_probability
    rw [h]
    rfl
  · intro t
    unfold Variable.get_probability
    rfl

/-- Witness for C10 on the parentless variable parsed from exA, whose table
is populated yet unreachable through get_probability. -/
theorem C10_witness :
    varAofA.get_probability [("True").data] =
      .error (.keyError (keyErrMsg [("True").data])) :=
  (C10_lookup_ignores_table varAofA [("True").data] (by decide)).1

end ReadBayesnet
